import Mathlib

/-!
Verification development for the PDF → image-only-PDF converter
(`src/src/components/PDFConverter.tsx`).

The component keeps a single `ConversionState` record (file, pages, progress,
status, quality) and exposes four operations, embedded here as pure functions:

* `handleFileSelect` / `onDrop` — load a new source file (lines 37-70);
* `convertPDFToImages` — rasterize every page of the loaded PDF, publishing a
  state snapshot after each page (lines 72-118);
* `onQualityChange` — the quality `Select`'s change handler (lines 232-246);
* `downloadImagePDF` — assemble the accumulated raster pages into a new PDF
  with aspect-fit-and-center placement (lines 120-171).

Browser effects are made explicit:

* `PageEnv` records, per page number, how the environment behaves during the
  conversion loop: `ok` (a 2D context is returned and `page.render` resolves),
  `noContext` (`canvas.getContext('2d')` returns `null`, so the body guarded
  by `if (context)` is skipped), or `fail` (`pdf.getPage` or `page.render`
  throws, landing in the `catch` block).
* a schedule `upd : Nat → Option Quality` records quality changes made by the
  UI between page renders (mid-run `setState` on the `quality` field).
* `toDataURL` is opaque; a `RasterPage` records exactly the data that
  determines its output: the canvas dimensions (intrinsic page size times the
  profile scale, lines 87-92), the page content, and the encoding format and
  compression quality passed at line 103.
* numbers are modelled as `ℚ` (exact arithmetic in place of JS doubles).
-/

/-- Lifecycle status of a conversion session (`ConversionState.status`). -/
inductive Status
  | idle
  | processing
  | completed
  | error
deriving DecidableEq

/-- Quality tier selector (`ConversionState.quality`). -/
inductive Quality
  | high
  | medium
  | low
deriving DecidableEq

/-- One row of the `qualitySettings` table (lines 31-35). -/
structure QualitySetting where
  scale : ℚ
  format : List Char
  quality : ℚ
deriving DecidableEq

/-- The `qualitySettings` table, verbatim from lines 31-35. -/
def qualitySettings : Quality → QualitySetting
  | Quality.high => { scale := 2, format := "image/jpeg".toList, quality := 95 / 100 }
  | Quality.medium => { scale := 3 / 2, format := "image/jpeg".toList, quality := 85 / 100 }
  | Quality.low => { scale := 1, format := "image/jpeg".toList, quality := 75 / 100 }

/-- One page of the loaded source document: its intrinsic size (the unscaled
viewport) and an abstract content tag. -/
structure SourcePage where
  width : ℚ
  height : ℚ
  content : Nat
deriving DecidableEq

/-- The document handle returned by `pdfjsLib.getDocument` (line 80):
`numPages` is `pagesSrc.length`. -/
structure SourceDocument where
  pagesSrc : List SourcePage
deriving DecidableEq

/-- An encoded raster image produced by `canvas.toDataURL` (line 103).  The
data URL itself is opaque; the record keeps exactly its determinants: the
canvas dimensions set at lines 91-92 (viewport = intrinsic size × scale), the
rendered page content, and the encoding format and compression quality. -/
structure RasterPage where
  width : ℚ
  height : ℚ
  content : Nat
  format : List Char
  encQuality : ℚ
deriving DecidableEq

/-- Rasterization of one page (lines 86-103): viewport scaled by
`settings.scale`, canvas of exactly the viewport dimensions, then
`toDataURL(settings.format, settings.quality)`. -/
def rasterize (p : SourcePage) (settings : QualitySetting) : RasterPage :=
  { width := p.width * settings.scale
    height := p.height * settings.scale
    content := p.content
    format := settings.format
    encQuality := settings.quality }

/-- A browser `File` object as the component uses it: `name`, `type` (the MIME
type checked at lines 42 and 64), and the outcome of
`getDocument(arrayBuffer)` — `none` when the bytes are not a valid PDF and the
promise rejects. -/
structure JsFile where
  name : List Char
  type : List Char
  doc : Option SourceDocument
deriving DecidableEq

/-- The component's `ConversionState` (lines 14-20). -/
structure SessionState where
  file : Option JsFile
  pages : List RasterPage
  progress : ℚ
  status : Status
  quality : Quality
deriving DecidableEq

/-- Per-page behaviour of the browser environment during the conversion
loop. -/
inductive PageEnv
  | ok
  | noContext
  | fail
deriving DecidableEq

/-- The MIME type accepted by both file-loading handlers. -/
def appPdfType : List Char := "application/pdf".toList

/-- The `<input type=file>` change handler (lines 62-70): a selected file of
type `application/pdf` replaces the current source and resets the session; any
other selection leaves the state untouched (only a toast fires). -/
def handleFileSelect (chosen : Option JsFile) (s : SessionState) : SessionState :=
  match chosen with
  | some file =>
      if file.type = appPdfType then
        { s with file := some file, status := Status.idle, pages := [], progress := 0 }
      else s
  | none => s

/-- The drag-and-drop handler (lines 37-50): the first dropped file whose type
is `application/pdf` replaces the current source and resets the session. -/
def onDrop (files : List JsFile) (s : SessionState) : SessionState :=
  match files.find? (fun f => decide (f.type = appPdfType)) with
  | some pdfFile =>
      { s with file := some pdfFile, status := Status.idle, pages := [], progress := 0 }
  | none => s

/-- The quality `Select`'s `onValueChange` handler (lines 234-236):
unconditionally `setState(prev => ({ ...prev, quality: value }))`. -/
def onQualityChange (value : Quality) (s : SessionState) : SessionState :=
  { s with quality := value }

/-- Result of the page loop of `convertPDFToImages`: the React state as left
by the loop, the local `images` array, whether an exception escaped to the
`catch` block, and the list of state snapshots published by `setState` inside
the loop (line 107), in order. -/
structure LoopResult where
  st : SessionState
  images : List RasterPage
  exc : Bool
  trace : List SessionState
deriving DecidableEq

/-- Application of a pending mid-run quality change: the UI's `setState` on
the `quality` field racing with the conversion loop. -/
def applyUpd (upd : Nat → Option Quality) (pageNum : Nat) (st : SessionState) :
    SessionState :=
  match upd pageNum with
  | some q => { st with quality := q }
  | none => st

/-- Mid-run quality updates change only the `quality` field. -/
@[simp] theorem applyUpd_pages (upd : Nat → Option Quality) (n : Nat) (st : SessionState) :
    (applyUpd upd n st).pages = st.pages := by
  unfold applyUpd; cases upd n <;> rfl

@[simp] theorem applyUpd_progress (upd : Nat → Option Quality) (n : Nat) (st : SessionState) :
    (applyUpd upd n st).progress = st.progress := by
  unfold applyUpd; cases upd n <;> rfl

@[simp] theorem applyUpd_status (upd : Nat → Option Quality) (n : Nat) (st : SessionState) :
    (applyUpd upd n st).status = st.status := by
  unfold applyUpd; cases upd n <;> rfl

@[simp] theorem applyUpd_file (upd : Nat → Option Quality) (n : Nat) (st : SessionState) :
    (applyUpd upd n st).file = st.file := by
  unfold applyUpd; cases upd n <;> rfl

/-- The `for` loop of `convertPDFToImages` (lines 85-109).  `pageNum` counts
from 1; `applyUpd upd pageNum` applies any quality change the UI made before
this iteration; `env pageNum` selects the branch actually taken: on `ok` the
page is rasterized, pushed onto `images`, and a snapshot with the recomputed
progress `(pageNum / totalPages) * 100` is published; on `noContext` the
`if (context)` guard fails and the loop silently advances; on `fail` the
thrown error aborts the loop. -/
def convertLoop (settings : QualitySetting) (totalPages : Nat) (env : Nat → PageEnv)
    (upd : Nat → Option Quality) :
    List SourcePage → Nat → List RasterPage → SessionState → LoopResult
  | [], _, images, st => ⟨st, images, false, []⟩
  | p :: rest, pageNum, images, st =>
    let st0 := applyUpd upd pageNum st
    match env pageNum with
    | PageEnv.fail => ⟨st0, images, true, []⟩
    | PageEnv.noContext => convertLoop settings totalPages env upd rest (pageNum + 1) images st0
    | PageEnv.ok =>
        let img := rasterize p settings
        let images2 := images ++ [img]
        let st2 := { st0 with
                      progress := ((pageNum : ℚ) / (totalPages : ℚ)) * 100
                      pages := images2 }
        let r := convertLoop settings totalPages env upd rest (pageNum + 1) images2 st2
        ⟨r.st, r.images, r.exc, st2 :: r.trace⟩

/-- Outcome of one invocation of `convertPDFToImages`: the final React state
and the full ordered list of snapshots passed to `setState`. -/
structure RunResult where
  final : SessionState
  trace : List SessionState
deriving DecidableEq

/-- The `convertPDFToImages` callback (lines 72-118).  With no file loaded it
returns immediately (line 73).  Otherwise it first publishes
`{ status: 'processing', progress: 0, pages: [] }` (line 75), reads the
settings for the quality captured at call time (line 83), and runs the page
loop; an exception (invalid document at line 80, or a page failure) lands in
the `catch` block, which publishes `{ status: 'error' }` on top of whatever
state the run had reached; otherwise line 111 publishes
`{ status: 'completed', pages: images }`. -/
def convertPDFToImages (env : Nat → PageEnv) (upd : Nat → Option Quality)
    (s : SessionState) : RunResult :=
  match s.file with
  | none => ⟨s, []⟩
  | some file =>
    let s1 := { s with status := Status.processing, progress := 0, pages := [] }
    match file.doc with
    | none => ⟨{ s1 with status := Status.error }, [s1, { s1 with status := Status.error }]⟩
    | some pdf =>
      let totalPages := pdf.pagesSrc.length
      let settings := qualitySettings s.quality
      let r := convertLoop settings totalPages env upd pdf.pagesSrc 1 [] s1
      if r.exc then
        ⟨{ r.st with status := Status.error },
          s1 :: r.trace ++ [{ r.st with status := Status.error }]⟩
      else
        ⟨{ r.st with status := Status.completed, pages := r.images },
          s1 :: r.trace ++ [{ r.st with status := Status.completed, pages := r.images }]⟩

/-- Placement rectangle computed for one image inside one output page. -/
structure Placement where
  width : ℚ
  height : ℚ
  x : ℚ
  y : ℚ
deriving DecidableEq

/-- The aspect-fit-and-center placement math of `downloadImagePDF`
(lines 143-156), verbatim: if the image aspect exceeds the page aspect the
image is width-constrained, otherwise height-constrained, and the rectangle is
centered.  (Source names `imgAspectRatio` / `pdfAspectRatio` are shortened to
avoid clashing with this development's naming conventions.) -/
def placeImage (imgWidth imgHeight pdfWidth pdfHeight : ℚ) : Placement :=
  let imgAspect := imgWidth / imgHeight
  let pdfAspect := pdfWidth / pdfHeight
  let wh : ℚ × ℚ :=
    if imgAspect > pdfAspect then (pdfWidth, pdfWidth / imgAspect)
    else (pdfHeight * imgAspect, pdfHeight)
  { width := wh.1, height := wh.2
    x := (pdfWidth - wh.1) / 2, y := (pdfHeight - wh.2) / 2 }

/-- Page width of `new jsPDF()` with default options: A4 portrait, 210 mm. -/
def jsPdfPageWidth : ℚ := 210

/-- Page height of `new jsPDF()` with default options: A4 portrait, 297 mm. -/
def jsPdfPageHeight : ℚ := 297

/-- One page of the generated output document: the image passed to
`pdf.addImage` together with its placement rectangle (line 158). -/
structure OutputPage where
  imgData : RasterPage
  placement : Placement
deriving DecidableEq

/-- A toast notification, the component's only reporting channel. -/
inductive ToastMsg
  | info (msg : List Char)
  | success (msg : List Char)
  | error (msg : List Char)
deriving DecidableEq

/-- Does `pat` occur at the head of `s`? -/
def startsWith : List Char → List Char → Bool
  | [], _ => true
  | _ :: _, [] => false
  | p :: ps, c :: cs => p == c && startsWith ps cs

/-- Does `pat` occur anywhere in `s`? -/
def occursIn (pat : List Char) : List Char → Bool
  | [] => startsWith pat []
  | c :: cs => startsWith pat (c :: cs) || occursIn pat cs

/-- JavaScript `String.prototype.replace` with a string pattern: replace the
FIRST occurrence of `pat` by `rep`; if `pat` does not occur, return the string
unchanged. -/
def replaceFirst (pat rep : List Char) : List Char → List Char
  | [] => []
  | c :: cs =>
      if startsWith pat (c :: cs) then rep ++ (c :: cs).drop pat.length
      else c :: replaceFirst pat rep cs

/-- The pattern handed to `replace` at line 164. -/
def pdfPat : List Char := ['.', 'p', 'd', 'f']

/-- The replacement handed to `replace` at line 164. -/
def imageOnlySuffix : List Char := "_image-only.pdf".toList

/-- The fallback output name at line 164. -/
def fallbackName : List Char := "converted_image-only.pdf".toList

/-- Line 164: `state.file?.name.replace('.pdf', '_image-only.pdf') ||
'converted_image-only.pdf'`.  The fallback is chosen when there is no file or
when the replacement result is the empty string (falsy). -/
def outputFileName (file : Option JsFile) : List Char :=
  match file with
  | some f =>
      let r := replaceFirst pdfPat imageOnlySuffix f.name
      if r = [] then fallbackName else r
  | none => fallbackName

/-- The `downloadImagePDF` callback (lines 120-171).  With no accumulated
pages it returns at once (line 121), producing no document and no toast.
Otherwise it builds one output page per raster page, in order, placing each
image by `placeImage` on the default jsPDF A4 page, saves the document under
`outputFileName`, and fires the info and success toasts. -/
def downloadImagePDF (s : SessionState) :
    Option (List OutputPage × List Char) × List ToastMsg :=
  if s.pages.length = 0 then (none, [])
  else
    let doc := s.pages.map (fun img =>
      { imgData := img
        placement := placeImage img.width img.height jsPdfPageWidth jsPdfPageHeight
        : OutputPage })
    (some (doc, outputFileName s.file),
      [ToastMsg.info "Creating image-only PDF...".toList,
       ToastMsg.success "Image-only PDF generated successfully!".toList])

/-- A concrete US-letter-sized source page used in concrete runs. -/
def pageA : SourcePage := { width := 612, height := 792, content := 1 }

/-- A second concrete source page with distinguishable content. -/
def pageB : SourcePage := { width := 612, height := 792, content := 2 }

/-- A one-page source document. -/
def onePagePdf : SourceDocument := { pagesSrc := [pageA] }

/-- A two-page source document. -/
def twoPagePdf : SourceDocument := { pagesSrc := [pageA, pageB] }

/-- A loaded, valid one-page PDF file. -/
def exFile : JsFile := { name := "doc.pdf".toList, type := appPdfType, doc := some onePagePdf }

/-- A loaded, valid two-page PDF file. -/
def exFile2 : JsFile := { name := "doc.pdf".toList, type := appPdfType, doc := some twoPagePdf }

/-- A non-PDF file, as rejected by the loading handlers. -/
def txtFile : JsFile := { name := "notes.txt".toList, type := "text/plain".toList, doc := none }

/-- A session in the middle of a run: status `processing`, one page already
accumulated, progress 50. -/
def procState : SessionState :=
  { file := some exFile
    pages := [rasterize pageA (qualitySettings Quality.high)]
    progress := 50
    status := Status.processing
    quality := Quality.high }

/-- An environment in which every page renders successfully. -/
def allOk : Nat → PageEnv := fun _ => PageEnv.ok

/-- The empty mid-run quality-update schedule. -/
def noUpd : Nat → Option Quality := fun _ => none

/-- Claim C2: for positive image and page dimensions the assembler places the
image by the exact branch formulas — width-constrained when
`imgAspect > pageAspect`, height-constrained otherwise — centers the placed
rectangle, preserves the image's aspect ratio, and never exceeds either page
dimension. -/
theorem placeImage_spec (imgWidth imgHeight pdfWidth pdfHeight : ℚ) (P : Placement)
    (hP : P = placeImage imgWidth imgHeight pdfWidth pdfHeight)
    (hiw : 0 < imgWidth) (hih : 0 < imgHeight)
    (hpw : 0 < pdfWidth) (hph : 0 < pdfHeight) :
    (imgWidth / imgHeight > pdfWidth / pdfHeight →
        P.width = pdfWidth ∧ P.height = pdfWidth / (imgWidth / imgHeight)) ∧
    (¬ imgWidth / imgHeight > pdfWidth / pdfHeight →
        P.height = pdfHeight ∧ P.width = pdfHeight * (imgWidth / imgHeight)) ∧
    P.x = (pdfWidth - P.width) / 2 ∧
    P.y = (pdfHeight - P.height) / 2 ∧
    P.width / P.height = imgWidth / imgHeight ∧
    P.width ≤ pdfWidth ∧ P.height ≤ pdfHeight := by
  have ha : 0 < imgWidth / imgHeight := div_pos hiw hih
  have hiw' : imgWidth ≠ 0 := ne_of_gt hiw
  have hih' : imgHeight ≠ 0 := ne_of_gt hih
  have hpw' : pdfWidth ≠ 0 := ne_of_gt hpw
  have hph' : pdfHeight ≠ 0 := ne_of_gt hph
  subst hP
  by_cases h : imgWidth / imgHeight > pdfWidth / pdfHeight
  · have hbr : placeImage imgWidth imgHeight pdfWidth pdfHeight =
        { width := pdfWidth, height := pdfWidth / (imgWidth / imgHeight)
          x := (pdfWidth - pdfWidth) / 2
          y := (pdfHeight - pdfWidth / (imgWidth / imgHeight)) / 2 } := by
      unfold placeImage
      dsimp only
      rw [if_pos h]
    rw [hbr]
    refine ⟨fun _ => ⟨rfl, rfl⟩, fun hc => absurd h hc, rfl, rfl, ?_, le_refl _, ?_⟩
    · field_simp
      ring
    · have h1 : pdfWidth < imgWidth / imgHeight * pdfHeight := (div_lt_iff₀ hph).mp h
      exact (div_le_iff₀ ha).mpr (by linarith)
  · have hbr : placeImage imgWidth imgHeight pdfWidth pdfHeight =
        { width := pdfHeight * (imgWidth / imgHeight), height := pdfHeight
          x := (pdfWidth - pdfHeight * (imgWidth / imgHeight)) / 2
          y := (pdfHeight - pdfHeight) / 2 } := by
      unfold placeImage
      dsimp only
      rw [if_neg h]
    rw [hbr]
    refine ⟨fun hc => absurd hc h, fun _ => ⟨rfl, rfl⟩, rfl, rfl, ?_, ?_, le_refl _⟩
    · exact mul_div_cancel_left₀ _ hph'
    · have h1 : imgWidth / imgHeight ≤ pdfWidth / pdfHeight := not_lt.mp h
      have h2 : imgWidth / imgHeight * pdfHeight ≤ pdfWidth := (le_div_iff₀ hph).mp h1
      linarith

/-- Witness for C2 at the spec's example: a 1600×1000 image on a 600×800
page is width-constrained, keeps its aspect ratio and fits the page. -/
theorem placeImage_spec_witness :
    (placeImage 1600 1000 600 800).width / (placeImage 1600 1000 600 800).height
      = 1600 / 1000 ∧
    (placeImage 1600 1000 600 800).width ≤ 600 ∧
    (placeImage 1600 1000 600 800).height ≤ 800 := by
  have h := placeImage_spec 1600 1000 600 800 (placeImage 1600 1000 600 800) rfl
    (by norm_num) (by norm_num) (by norm_num) (by norm_num)
  exact ⟨h.2.2.2.2.1, h.2.2.2.2.2.1, h.2.2.2.2.2.2⟩

/-- A session with a loaded file but no accumulated raster pages. -/
def emptyPagesState : SessionState :=
  { file := some exFile, pages := [], progress := 0
    status := Status.completed, quality := Quality.high }

/-- Claim C3 counterexample: assembling with zero raster pages does NOT fail
with any error — `downloadImagePDF` returns at once producing no output
document and firing no toast at all (the component's only reporting channel),
so nothing is reported to the caller. -/
theorem downloadImagePDF_empty_counterexample :
    downloadImagePDF emptyPagesState = (none, []) := by rfl

/-- Claim C3 amended: invoking assembly with an empty page sequence is a
silent synchronous no-op — no output document and no notification of any
kind. -/
theorem downloadImagePDF_empty_noop (s : SessionState) (h : s.pages = []) :
    downloadImagePDF s = (none, []) := by
  unfold downloadImagePDF
  rw [h]
  rfl

/-- Witness for the amended C3 at a concrete session. -/
theorem downloadImagePDF_empty_noop_witness :
    downloadImagePDF emptyPagesState = (none, []) :=
  downloadImagePDF_empty_noop emptyPagesState rfl

/-- Claim C7 counterexample: loading a valid PDF while `status = processing`
is NOT rejected — the state changes and the status is forced back to
`idle`. -/
theorem handleFileSelect_processing_counterexample :
    procState.status = Status.processing ∧
    handleFileSelect (some exFile) procState ≠ procState ∧
    (handleFileSelect (some exFile) procState).status = Status.idle := by
  refine ⟨rfl, fun h => ?_, by decide⟩
  exact absurd (congrArg SessionState.status h) (by decide)

/-- Claim C7 amended: loading a file of type `application/pdf` succeeds in
EVERY status — including `processing` — and resets the session to
`pages = []`, `progress = 0`, `status = idle` with the new file installed;
a non-PDF or absent selection leaves the state unchanged. -/
theorem handleFileSelect_spec (s : SessionState) (f : JsFile) :
    (f.type = appPdfType →
      handleFileSelect (some f) s =
        { s with file := some f, status := Status.idle, pages := [], progress := 0 }) ∧
    (f.type ≠ appPdfType → handleFileSelect (some f) s = s) ∧
    handleFileSelect none s = s := by
  refine ⟨fun h => ?_, fun h => ?_, rfl⟩
  · simp [handleFileSelect, h]
  · simp [handleFileSelect, h]

/-- Witness for the amended C7: a PDF load mid-run resets the session; a
text-file selection is ignored. -/
theorem handleFileSelect_spec_witness :
    handleFileSelect (some exFile) procState =
      { procState with
          file := some exFile, status := Status.idle, pages := [], progress := 0 } ∧
    handleFileSelect (some txtFile) procState = procState :=
  ⟨(handleFileSelect_spec procState exFile).1 rfl,
   (handleFileSelect_spec procState txtFile).2.1 (by decide)⟩

/-- Claim C9 counterexample: a quality change requested while a run is
`processing` is applied, not rejected. -/
theorem onQualityChange_processing_counterexample :
    procState.status = Status.processing ∧
    onQualityChange Quality.low procState ≠ procState ∧
    (onQualityChange Quality.low procState).quality = Quality.low := by
  refine ⟨rfl, fun h => ?_, rfl⟩
  exact absurd (congrArg SessionState.quality h) (by decide)

/-- Claim C9 amended: the quality handler applies the requested tier
unconditionally — in every status, including `processing` — and touches no
other field of the session. -/
theorem onQualityChange_spec (s : SessionState) (v : Quality) :
    (onQualityChange v s).quality = v ∧
    (onQualityChange v s).file = s.file ∧
    (onQualityChange v s).pages = s.pages ∧
    (onQualityChange v s).progress = s.progress ∧
    (onQualityChange v s).status = s.status :=
  ⟨rfl, rfl, rfl, rfl, rfl⟩

/-- The source pages a loop run starting at `pageNum` actually rasterizes:
pages are taken in order until a page throws; a page whose context allocation
fails is dropped and the loop moves on. -/
def processedPages (env : Nat → PageEnv) : List SourcePage → Nat → List SourcePage
  | [], _ => []
  | p :: rest, pageNum =>
    match env pageNum with
    | PageEnv.ok => p :: processedPages env rest (pageNum + 1)
    | PageEnv.noContext => processedPages env rest (pageNum + 1)
    | PageEnv.fail => []

/-- Whether a loop run starting at `pageNum` hits a throwing page. -/
def hitFail (env : Nat → PageEnv) : List SourcePage → Nat → Bool
  | [], _ => false
  | _ :: rest, pageNum =>
    match env pageNum with
    | PageEnv.fail => true
    | PageEnv.ok => hitFail env rest (pageNum + 1)
    | PageEnv.noContext => hitFail env rest (pageNum + 1)

/-- The loop's `images` array collects exactly the rasterizations of the
processed pages, appended in order to what was already there. -/
theorem convertLoop_images (settings : QualitySetting) (totalPages : Nat)
    (env : Nat → PageEnv) (upd : Nat → Option Quality) :
    ∀ (l : List SourcePage) (pageNum : Nat) (images : List RasterPage) (st : SessionState),
    (convertLoop settings totalPages env upd l pageNum images st).images
      = images ++ (processedPages env l pageNum).map (fun p => rasterize p settings) := by
  intro l
  induction l with
  | nil => intro pageNum images st; simp [convertLoop, processedPages]
  | cons p rest ih =>
    intro pageNum images st
    cases henv : env pageNum <;>
      simp [convertLoop, processedPages, henv, ih]

/-- The loop throws exactly when some page up to the first failure throws. -/
theorem convertLoop_exc (settings : QualitySetting) (totalPages : Nat)
    (env : Nat → PageEnv) (upd : Nat → Option Quality) :
    ∀ (l : List SourcePage) (pageNum : Nat) (images : List RasterPage) (st : SessionState),
    (convertLoop settings totalPages env upd l pageNum images st).exc
      = hitFail env l pageNum := by
  intro l
  induction l with
  | nil => intro pageNum images st; simp [convertLoop, hitFail]
  | cons p rest ih =>
    intro pageNum images st
    cases henv : env pageNum <;>
      simp [convertLoop, hitFail, henv, ih]

/-- The loop never changes the `status` field of the threaded state. -/
theorem convertLoop_status (settings : QualitySetting) (totalPages : Nat)
    (env : Nat → PageEnv) (upd : Nat → Option Quality) :
    ∀ (l : List SourcePage) (pageNum : Nat) (images : List RasterPage) (st : SessionState),
    (convertLoop settings totalPages env upd l pageNum images st).st.status = st.status := by
  intro l
  induction l with
  | nil => intro pageNum images st; simp [convertLoop]
  | cons p rest ih =>
    intro pageNum images st
    cases henv : env pageNum <;>
      simp [convertLoop, henv, ih]

/-- The loop never changes the `file` field of the threaded state. -/
theorem convertLoop_file (settings : QualitySetting) (totalPages : Nat)
    (env : Nat → PageEnv) (upd : Nat → Option Quality) :
    ∀ (l : List SourcePage) (pageNum : Nat) (images : List RasterPage) (st : SessionState),
    (convertLoop settings totalPages env upd l pageNum images st).st.file = st.file := by
  intro l
  induction l with
  | nil => intro pageNum images st; simp [convertLoop]
  | cons p rest ih =>
    intro pageNum images st
    cases henv : env pageNum <;>
      simp [convertLoop, henv, ih]

/-- If the threaded state's `pages` field mirrors the `images` array, it
still does when the loop finishes. -/
theorem convertLoop_pages (settings : QualitySetting) (totalPages : Nat)
    (env : Nat → PageEnv) (upd : Nat → Option Quality) :
    ∀ (l : List SourcePage) (pageNum : Nat) (images : List RasterPage) (st : SessionState),
    st.pages = images →
    (convertLoop settings totalPages env upd l pageNum images st).st.pages
      = images ++ (processedPages env l pageNum).map (fun p => rasterize p settings) := by
  intro l
  induction l with
  | nil => intro pageNum images st h; simpa [convertLoop, processedPages] using h
  | cons p rest ih =>
    intro pageNum images st h
    cases henv : env pageNum
    · simp only [convertLoop, henv]
      rw [ih (pageNum + 1) (images ++ [rasterize p settings]) _ rfl]
      simp [processedPages, henv]
    · simp only [convertLoop, henv]
      rw [ih (pageNum + 1) images _ (by simpa using h)]
      simp [processedPages, henv]
    · simp only [convertLoop, henv]
      simpa [processedPages, henv] using h

/-- At most as many pages are processed as exist. -/
theorem processedPages_length_le (env : Nat → PageEnv) :
    ∀ (l : List SourcePage) (pageNum : Nat),
    (processedPages env l pageNum).length ≤ l.length := by
  intro l
  induction l with
  | nil => intro pageNum; simp [processedPages]
  | cons p rest ih =>
    intro pageNum
    cases henv : env pageNum <;> simp [processedPages, henv]
    · exact ih (pageNum + 1)
    · exact Nat.le_succ_of_le (ih (pageNum + 1))

/-- When every page in range behaves well, every page is processed. -/
theorem processedPages_all_ok (env : Nat → PageEnv) :
    ∀ (l : List SourcePage) (pageNum : Nat),
    (∀ j, pageNum ≤ j → j < pageNum + l.length → env j = PageEnv.ok) →
    processedPages env l pageNum = l := by
  intro l
  induction l with
  | nil => intro pageNum _; simp [processedPages]
  | cons p rest ih =>
    intro pageNum h
    have h0 : env pageNum = PageEnv.ok := h pageNum (le_refl _) (by simp)
    simp only [processedPages, h0]
    rw [ih (pageNum + 1) (fun j h1 h2 => h j (by omega) (by simp only [List.length_cons] at h2 ⊢; omega))]

/-- When no page in range throws, the loop does not throw. -/
theorem hitFail_no_fail (env : Nat → PageEnv) :
    ∀ (l : List SourcePage) (pageNum : Nat),
    (∀ j, pageNum ≤ j → j < pageNum + l.length → env j ≠ PageEnv.fail) →
    hitFail env l pageNum = false := by
  intro l
  induction l with
  | nil => intro pageNum _; simp [hitFail]
  | cons p rest ih =>
    intro pageNum h
    have h0 : env pageNum ≠ PageEnv.fail := h pageNum (le_refl _) (by simp)
    have hrest : hitFail env rest (pageNum + 1) = false :=
      ih (pageNum + 1) (fun j h1 h2 => h j (by omega) (by simp only [List.length_cons] at h2 ⊢; omega))
    cases henv : env pageNum
    · simp [hitFail, henv, hrest]
    · simp [hitFail, henv, hrest]
    · exact absurd henv h0

/-- When pages before `k` behave well and page `k` throws, the loop throws. -/
theorem hitFail_first_fail (env : Nat → PageEnv) :
    ∀ (l : List SourcePage) (pageNum k : Nat),
    pageNum ≤ k → k < pageNum + l.length →
    (∀ j, pageNum ≤ j → j < k → env j ≠ PageEnv.fail) →
    env k = PageEnv.fail →
    hitFail env l pageNum = true := by
  intro l
  induction l with
  | nil => intro pageNum k h1 h2 _ _; simp at h2; omega
  | cons p rest ih =>
    intro pageNum k h1 h2 h3 h4
    by_cases hk : pageNum = k
    · subst hk
      simp [hitFail, h4]
    · have h0 : env pageNum ≠ PageEnv.fail := h3 pageNum (le_refl _) (by omega)
      have hrest : hitFail env rest (pageNum + 1) = true :=
        ih (pageNum + 1) k (by omega) (by simpa [Nat.add_right_comm] using h2)
          (fun j ha hb => h3 j (by omega) hb) h4
      cases henv : env pageNum
      · simp [hitFail, henv, hrest]
      · simp [hitFail, henv, hrest]
      · exact absurd henv h0

/-- When pages before `k` behave well and page `k` throws, exactly the pages
before `k` are processed. -/
theorem processedPages_fail_at (env : Nat → PageEnv) :
    ∀ (l : List SourcePage) (pageNum k : Nat),
    pageNum ≤ k →
    (∀ j, pageNum ≤ j → j < k → env j = PageEnv.ok) →
    env k = PageEnv.fail →
    processedPages env l pageNum = l.take (k - pageNum) := by
  intro l
  induction l with
  | nil => intro pageNum k _ _ _; simp [processedPages]
  | cons p rest ih =>
    intro pageNum k h1 h2 h3
    by_cases hk : pageNum = k
    · subst hk
      simp [processedPages, h3]
    · have h0 : env pageNum = PageEnv.ok := h2 pageNum (le_refl _) (by omega)
      simp only [processedPages, h0]
      rw [ih (pageNum + 1) k (by omega) (fun j ha hb => h2 j (by omega) hb) h3]
      have : k - pageNum = (k - (pageNum + 1)) + 1 := by omega
      rw [this]
      rfl

/-- When exactly page `k` loses its context and every other page in range
renders, page `k` is skipped: the processed pages are the list with index
`k - pageNum` erased. -/
theorem processedPages_noContext_at (env : Nat → PageEnv) :
    ∀ (l : List SourcePage) (pageNum k : Nat),
    pageNum ≤ k → k < pageNum + l.length →
    (∀ j, pageNum ≤ j → j < pageNum + l.length → j ≠ k → env j = PageEnv.ok) →
    env k = PageEnv.noContext →
    processedPages env l pageNum = l.eraseIdx (k - pageNum) := by
  intro l
  induction l with
  | nil => intro pageNum k h1 h2 _ _; simp at h2; omega
  | cons p rest ih =>
    intro pageNum k h1 h2 h3 h4
    by_cases hk : pageNum = k
    · subst hk
      simp only [processedPages, h4, Nat.sub_self, List.eraseIdx]
      exact processedPages_all_ok env rest (pageNum + 1)
        (fun j ha hb => h3 j (by omega) (by simp at h2 ⊢; omega) (by omega))
    · have h0 : env pageNum = PageEnv.ok := h3 pageNum (le_refl _) (by simp) (by omega)
      simp only [processedPages, h0]
      rw [ih (pageNum + 1) k (by omega) (by simp at h2 ⊢; omega)
        (fun j ha hb hc => h3 j (by omega) (by simp at hb ⊢; omega) hc) h4]
      have : k - pageNum = (k - (pageNum + 1)) + 1 := by omega
      rw [this]
      rfl

/-- Division of rationals by a common nonnegative denominator is monotone. -/
theorem div_le_div_of_le_nonneg (a b c : ℚ) (h : a ≤ b) (hc : 0 ≤ c) :
    a / c ≤ b / c := by
  rcases eq_or_lt_of_le hc with hc0 | hc0
  · rw [← hc0]
    simp
  · exact (div_le_div_iff_of_pos_right hc0).mpr h

/-- Every state snapshot published inside the loop carries at most
`images.length + l.length` accumulated pages. -/
theorem convertLoop_trace_pages_le (settings : QualitySetting) (totalPages : Nat)
    (env : Nat → PageEnv) (upd : Nat → Option Quality) :
    ∀ (l : List SourcePage) (pageNum : Nat) (images : List RasterPage) (st : SessionState),
    ∀ x ∈ (convertLoop settings totalPages env upd l pageNum images st).trace,
    x.pages.length ≤ images.length + l.length := by
  intro l
  induction l with
  | nil => intro pageNum images st x hx; simp [convertLoop] at hx
  | cons p rest ih =>
    intro pageNum images st x hx
    cases henv : env pageNum
    case ok =>
      simp only [convertLoop, henv] at hx
      rcases List.mem_cons.mp hx with hx2 | hx2
      · subst hx2
        simp [List.length_append]
      · have := ih (pageNum + 1) (images ++ [rasterize p settings]) _ x hx2
        simp only [List.length_append, List.length_cons, List.length_nil] at this ⊢
        omega
    case noContext =>
      simp only [convertLoop, henv] at hx
      have := ih (pageNum + 1) images _ x hx
      simp only [List.length_cons] at this ⊢
      omega
    case fail =>
      simp only [convertLoop, henv] at hx
      simp at hx

/-- Progress is monotone along the snapshots of a run: starting from a state
whose progress is at most `(pageNum - 1) / totalPages * 100`, the loop's
snapshots followed by any terminal state sharing the loop's final progress
form a non-decreasing chain. -/
theorem convertLoop_chain_full (settings : QualitySetting) (totalPages : Nat)
    (env : Nat → PageEnv) (upd : Nat → Option Quality) :
    ∀ (l : List SourcePage) (pageNum : Nat) (images : List RasterPage)
      (st fin : SessionState),
    st.progress ≤ ((pageNum : ℚ) - 1) / (totalPages : ℚ) * 100 →
    fin.progress = (convertLoop settings totalPages env upd l pageNum images st).st.progress →
    List.Chain' (fun a b => a.progress ≤ b.progress)
      (st :: ((convertLoop settings totalPages env upd l pageNum images st).trace ++ [fin])) := by
  intro l
  induction l with
  | nil =>
    intro pageNum images st fin h hfin
    simp only [convertLoop] at hfin ⊢
    exact List.chain'_pair.mpr (le_of_eq hfin.symm)
  | cons p rest ih =>
    intro pageNum images st fin h hfin
    have hstep : ((pageNum : ℚ) - 1) / (totalPages : ℚ) * 100
        ≤ (pageNum : ℚ) / (totalPages : ℚ) * 100 := by
      have := div_le_div_of_le_nonneg ((pageNum : ℚ) - 1) (pageNum : ℚ) (totalPages : ℚ)
        (by linarith) (by positivity)
      linarith
    have hcast : (((pageNum + 1 : Nat) : ℚ) - 1) / (totalPages : ℚ) * 100
        = (pageNum : ℚ) / (totalPages : ℚ) * 100 := by
      push_cast
      ring
    cases henv : env pageNum
    case ok =>
      simp only [convertLoop, henv] at hfin ⊢
      refine List.chain'_cons.mpr ⟨le_trans h hstep, ?_⟩
      exact ih (pageNum + 1) _ _ fin (by rw [hcast]) hfin
    case noContext =>
      simp only [convertLoop, henv] at hfin ⊢
      have hc := ih (pageNum + 1) images (applyUpd upd pageNum st) fin
        (by rw [hcast]; simpa using le_trans h hstep) hfin
      rcases htr : (convertLoop settings totalPages env upd rest (pageNum + 1) images
          (applyUpd upd pageNum st)).trace ++ [fin] with _ | ⟨c, tr⟩
      · exact absurd htr (by simp)
      · rw [htr] at hc
        refine List.chain'_cons.mpr ⟨?_, (List.chain'_cons.mp hc).2⟩
        have h1 := (List.chain'_cons.mp hc).1
        simpa using h1
    case fail =>
      simp only [convertLoop, henv] at hfin ⊢
      refine List.chain'_pair.mpr ?_
      rw [hfin]
      simp

/-- When every page in range renders, the loop's final progress is that of the
last page. -/
theorem convertLoop_progress_all_ok (settings : QualitySetting) (totalPages : Nat)
    (env : Nat → PageEnv) (upd : Nat → Option Quality) :
    ∀ (l : List SourcePage) (pageNum : Nat) (images : List RasterPage) (st : SessionState),
    (∀ j, pageNum ≤ j → j < pageNum + l.length → env j = PageEnv.ok) →
    l ≠ [] →
    (convertLoop settings totalPages env upd l pageNum images st).st.progress
      = (((pageNum + (l.length - 1)) : Nat) : ℚ) / (totalPages : ℚ) * 100 := by
  intro l
  induction l with
  | nil => intro pageNum images st _ hne; exact absurd rfl hne
  | cons p rest ih =>
    intro pageNum images st h _
    have h0 : env pageNum = PageEnv.ok := h pageNum (le_refl _) (by simp)
    rcases hr : rest with _ | ⟨q, rest'⟩
    · simp [convertLoop, h0]
    · have hne' : rest ≠ [] := by rw [hr]; simp
      rw [← hr]
      simp only [convertLoop, h0]
      rw [ih (pageNum + 1) _ _
        (fun j h1 h2 => h j (by omega) (by simp only [List.length_cons] at h2 ⊢; omega)) hne']
      have : pageNum + 1 + (rest.length - 1) = pageNum + ((p :: rest).length - 1) := by
        rw [hr]
        simp only [List.length_cons]
        omega
      rw [this]

/-- When every page in range renders, the published progress values are
exactly `(pageNum + i) / totalPages * 100` for `i = 0 .. l.length - 1`. -/
theorem convertLoop_trace_all_ok (settings : QualitySetting) (totalPages : Nat)
    (env : Nat → PageEnv) (upd : Nat → Option Quality) :
    ∀ (l : List SourcePage) (pageNum : Nat) (images : List RasterPage) (st : SessionState),
    (∀ j, pageNum ≤ j → j < pageNum + l.length → env j = PageEnv.ok) →
    (convertLoop settings totalPages env upd l pageNum images st).trace.map
        (fun x => x.progress)
      = (List.range l.length).map
          (fun i => (((pageNum + i) : Nat) : ℚ) / (totalPages : ℚ) * 100) := by
  intro l
  induction l with
  | nil => intro pageNum images st _; simp [convertLoop]
  | cons p rest ih =>
    intro pageNum images st h
    have h0 : env pageNum = PageEnv.ok := h pageNum (le_refl _) (by simp)
    simp only [convertLoop, h0, List.map_cons, List.length_cons]
    rw [ih (pageNum + 1) _ _
      (fun j h1 h2 => h j (by omega) (by simp only [List.length_cons] at h2 ⊢; omega))]
    rw [List.range_succ_eq_map, List.map_cons, List.map_map]
    refine congrArg₂ _ (by norm_num) ?_
    refine List.map_congr_left (fun i _ => ?_)
    have : pageNum + 1 + i = pageNum + (i + 1) := by omega
    simp only [Function.comp]
    rw [this]

/-- The final accumulated pages do not depend on the mid-run quality-update
schedule nor on the threaded state, given matching initial pages. -/
theorem convertLoop_pages_irrel (settings : QualitySetting) (totalPages : Nat)
    (env : Nat → PageEnv) (upd upd' : Nat → Option Quality)
    (l : List SourcePage) (pageNum : Nat) (images : List RasterPage)
    (st st' : SessionState) (h : st.pages = images) (h' : st'.pages = images) :
    (convertLoop settings totalPages env upd l pageNum images st).st.pages
      = (convertLoop settings totalPages env upd' l pageNum images st').st.pages := by
  rw [convertLoop_pages _ _ _ _ _ _ _ _ h, convertLoop_pages _ _ _ _ _ _ _ _ h']

/-- Claim C10: the rendering parameters of a run are fixed by the quality
tier read once at run start (line 83, before the page loop).  Two runs over
the same session and environment whose schedules of mid-run quality updates
differ arbitrarily produce identical raster pages and identical final
status. -/
theorem convert_settings_captured_at_start (env : Nat → PageEnv)
    (upd upd' : Nat → Option Quality) (s : SessionState) :
    (convertPDFToImages env upd s).final.pages
      = (convertPDFToImages env upd' s).final.pages ∧
    (convertPDFToImages env upd s).final.status
      = (convertPDFToImages env upd' s).final.status := by
  cases hf : s.file with
  | none => simp [convertPDFToImages, hf]
  | some f =>
    cases hd : f.doc with
    | none => simp [convertPDFToImages, hf, hd]
    | some pdf =>
      simp only [convertPDFToImages, hf, hd]
      rw [convertLoop_exc, convertLoop_exc]
      cases hfail : hitFail env pdf.pagesSrc 1
      · simp only [hfail, Bool.false_eq_true, if_false]
        refine ⟨?_, by trivial⟩
        rw [convertLoop_images, convertLoop_images]
      · simp only [hfail, eq_self_iff_true, if_true]
        refine ⟨?_, by trivial⟩
        exact convertLoop_pages_irrel _ _ _ _ _ _ _ _ _ _ (by rfl) (by rfl)

/-- Claim C4 counterexample: invoking `convertPDFToImages` on a session whose
status is `processing` neither fails nor is a no-op: the run is restarted —
the first published snapshot clears `pages` — and it proceeds to completion.
No `InvalidStateError` exists anywhere in the component. -/
theorem convert_while_processing_counterexample :
    procState.status = Status.processing ∧
    (convertPDFToImages allOk noUpd procState).final.status = Status.completed ∧
    ((convertPDFToImages allOk noUpd procState).trace.map SessionState.pages).head?
      = some [] ∧
    convertPDFToImages allOk noUpd procState ≠ ⟨procState, []⟩ := by
  refine ⟨rfl, rfl, rfl, fun h => ?_⟩
  exact absurd (congrArg (fun r => r.final.status) h) (by decide)

/-- Claim C4 amended: a second `convert` call on a `processing` session is not
rejected; whenever a file is loaded the call restarts the run, immediately
publishing a snapshot with `status = processing`, `progress = 0` and `pages`
cleared.  The only guard in the component is the UI's: the convert button is
rendered only while `status = idle`. -/
theorem convert_restart_spec (s : SessionState) (f : JsFile)
    (env : Nat → PageEnv) (upd : Nat → Option Quality)
    (hf : s.file = some f) (_hp : s.status = Status.processing) :
    (convertPDFToImages env upd s).trace.head? =
      some { s with status := Status.processing, progress := 0, pages := [] } := by
  simp only [convertPDFToImages, hf]
  cases hd : f.doc
  · rfl
  · simp only []
    split <;> rfl

/-- Witness for the amended C4 at a concrete mid-run session. -/
theorem convert_restart_spec_witness :
    (convertPDFToImages allOk noUpd procState).trace.head? =
      some { procState with status := Status.processing, progress := 0, pages := [] } :=
  convert_restart_spec procState exFile allOk noUpd rfl rfl

/-- An environment in which no page ever obtains a 2D context. -/
def envNoCtx : Nat → PageEnv := fun _ => PageEnv.noContext

/-- An idle session with the one-page file loaded. -/
def idleOnePage : SessionState :=
  { file := some exFile, pages := [], progress := 0
    status := Status.idle, quality := Quality.high }

/-- An idle session with the two-page file loaded. -/
def idleTwoPage : SessionState :=
  { file := some exFile2, pages := [], progress := 0
    status := Status.idle, quality := Quality.high }

/-- Claim C1 counterexample: on a valid 1-page source whose single page gets
no 2D context, the run still reaches `completed` — with zero accumulated
pages and progress 0, not 1 page and progress 100. -/
theorem convert_completed_counterexample :
    onePagePdf.pagesSrc.length = 1 ∧
    (convertPDFToImages envNoCtx noUpd idleOnePage).final.status = Status.completed ∧
    (convertPDFToImages envNoCtx noUpd idleOnePage).final.pages.length = 0 ∧
    (convertPDFToImages envNoCtx noUpd idleOnePage).final.progress = 0 ∧
    (0 : ℚ) ≠ 100 := by
  refine ⟨rfl, rfl, rfl, rfl, by norm_num⟩

/-- Claim C1 amended: `pages.length` never exceeds the source page count in
any published snapshot nor at the end; and provided every page of the run
obtains a context and renders (no silent `if (context)` skip), a run of a
nonempty source completes with exactly `N` pages and progress 100. -/
theorem convert_completed_spec (s : SessionState) (f : JsFile) (pdf : SourceDocument)
    (env : Nat → PageEnv) (upd : Nat → Option Quality)
    (hf : s.file = some f) (hd : f.doc = some pdf) :
    (∀ x ∈ (convertPDFToImages env upd s).trace,
        x.pages.length ≤ pdf.pagesSrc.length) ∧
    (convertPDFToImages env upd s).final.pages.length ≤ pdf.pagesSrc.length ∧
    (0 < pdf.pagesSrc.length →
      (∀ j, 1 ≤ j → j ≤ pdf.pagesSrc.length → env j = PageEnv.ok) →
      (convertPDFToImages env upd s).final.status = Status.completed ∧
      (convertPDFToImages env upd s).final.pages.length = pdf.pagesSrc.length ∧
      (convertPDFToImages env upd s).final.progress = 100) := by
  simp only [convertPDFToImages, hf, hd]
  rw [convertLoop_exc]
  cases hfail : hitFail env pdf.pagesSrc 1
  · simp only [hfail, Bool.false_eq_true, if_false]
    refine ⟨?_, ?_, ?_⟩
    · intro x hx
      rcases List.mem_cons.mp hx with hx1 | hx1
      · subst hx1
        exact Nat.zero_le _
      · rcases List.mem_append.mp hx1 with hx2 | hx2
        · simpa using convertLoop_trace_pages_le _ _ env upd pdf.pagesSrc 1 [] _ x hx2
        · have hx3 := List.mem_singleton.mp hx2
          subst hx3
          show ((convertLoop _ _ env upd pdf.pagesSrc 1 [] _).images).length ≤ _
          rw [convertLoop_images]
          simpa using processedPages_length_le env pdf.pagesSrc 1
    · show ((convertLoop _ _ env upd pdf.pagesSrc 1 [] _).images).length ≤ _
      rw [convertLoop_images]
      simpa using processedPages_length_le env pdf.pagesSrc 1
    · intro hN hok
      refine ⟨by trivial, ?_, ?_⟩
      · show ((convertLoop _ _ env upd pdf.pagesSrc 1 [] _).images).length = _
        rw [convertLoop_images,
          processedPages_all_ok env pdf.pagesSrc 1 (fun j h1 h2 => hok j h1 (by omega))]
        simp
      · show (convertLoop _ _ env upd pdf.pagesSrc 1 [] _).st.progress = 100
        rw [convertLoop_progress_all_ok _ _ env upd pdf.pagesSrc 1 [] _
          (fun j h1 h2 => hok j h1 (by omega)) (by intro hcon; rw [hcon] at hN; simp at hN)]
        have h1 : 1 + (pdf.pagesSrc.length - 1) = pdf.pagesSrc.length := by omega
        rw [h1]
        have h2 : (pdf.pagesSrc.length : ℚ) ≠ 0 := by
          exact_mod_cast Nat.pos_iff_ne_zero.mp hN
        field_simp
  · simp only [hfail, eq_self_iff_true, if_true]
    refine ⟨?_, ?_, ?_⟩
    · intro x hx
      rcases List.mem_cons.mp hx with hx1 | hx1
      · subst hx1
        exact Nat.zero_le _
      · rcases List.mem_append.mp hx1 with hx2 | hx2
        · simpa using convertLoop_trace_pages_le _ _ env upd pdf.pagesSrc 1 [] _ x hx2
        · have hx3 := List.mem_singleton.mp hx2
          subst hx3
          show ((convertLoop _ _ env upd pdf.pagesSrc 1 [] _).st.pages).length ≤ _
          rw [convertLoop_pages _ _ _ _ _ _ _ _ (by rfl)]
          simpa using processedPages_length_le env pdf.pagesSrc 1
    · show ((convertLoop _ _ env upd pdf.pagesSrc 1 [] _).st.pages).length ≤ _
      rw [convertLoop_pages _ _ _ _ _ _ _ _ (by rfl)]
      simpa using processedPages_length_le env pdf.pagesSrc 1
    · intro hN hok
      have hnofail := hitFail_no_fail env pdf.pagesSrc 1
        (fun j h1 h2 => by rw [hok j h1 (by omega)]; decide)
      rw [hnofail] at hfail
      exact absurd hfail (by simp)

/-- Witness for the amended C1: a fully successful 2-page run completes with
both pages and progress 100. -/
theorem convert_completed_spec_witness :
    (convertPDFToImages allOk noUpd idleTwoPage).final.status = Status.completed ∧
    (convertPDFToImages allOk noUpd idleTwoPage).final.pages.length
      = twoPagePdf.pagesSrc.length ∧
    (convertPDFToImages allOk noUpd idleTwoPage).final.progress = 100 := by
  have h := convert_completed_spec idleTwoPage exFile2 twoPagePdf allOk noUpd rfl rfl
  have h3 := h.2.2 (by decide) (fun j h1 h2 => rfl)
  exact ⟨h3.1, h3.2.1, h3.2.2⟩

/-- An environment in which page 1 loses its 2D context and every other page
renders. -/
def envNC1 : Nat → PageEnv := fun j => if j = 1 then PageEnv.noContext else PageEnv.ok

/-- An environment in which page 1 throws and every other page renders. -/
def envFail1 : Nat → PageEnv := fun j => if j = 1 then PageEnv.fail else PageEnv.ok

/-- Claim C5 counterexample: when page 1 of a 2-page source fails to
rasterize because `canvas.getContext('2d')` returns `null`, the run does NOT
abort — the failing page is silently skipped, the loop continues, and the run
completes with only page 2's raster. -/
theorem convert_error_counterexample :
    twoPagePdf.pagesSrc.length = 2 ∧
    (convertPDFToImages envNC1 noUpd idleTwoPage).final.status = Status.completed ∧
    (convertPDFToImages envNC1 noUpd idleTwoPage).final.status ≠ Status.error ∧
    (convertPDFToImages envNC1 noUpd idleTwoPage).final.pages
      = [rasterize pageB (qualitySettings Quality.high)] := by
  refine ⟨rfl, rfl, fun h => ?_, rfl⟩
  exact absurd h (by decide)

/-- Claim C5 amended: a page failure that THROWS (page load or render error)
aborts the run at that page: status becomes `error`, the pages accumulated
before the failure are retained, no later page is processed and nothing is
retried.  A failure to allocate the 2D context, however, does not abort: the
page is silently skipped and the loop continues, completing without it. -/
theorem convert_error_spec (s : SessionState) (f : JsFile) (pdf : SourceDocument)
    (env : Nat → PageEnv) (upd : Nat → Option Quality) (k : Nat)
    (hf : s.file = some f) (hd : f.doc = some pdf)
    (hk1 : 1 ≤ k) (hk2 : k ≤ pdf.pagesSrc.length)
    (hbefore : ∀ j, 1 ≤ j → j < k → env j = PageEnv.ok) :
    (env k = PageEnv.fail →
      (convertPDFToImages env upd s).final.status = Status.error ∧
      (convertPDFToImages env upd s).final.pages
        = (pdf.pagesSrc.take (k - 1)).map
            (fun p => rasterize p (qualitySettings s.quality))) ∧
    (env k = PageEnv.noContext →
      (∀ j, k < j → j ≤ pdf.pagesSrc.length → env j = PageEnv.ok) →
      (convertPDFToImages env upd s).final.status = Status.completed ∧
      (convertPDFToImages env upd s).final.pages
        = (pdf.pagesSrc.eraseIdx (k - 1)).map
            (fun p => rasterize p (qualitySettings s.quality))) := by
  simp only [convertPDFToImages, hf, hd]
  rw [convertLoop_exc]
  constructor
  · intro hfk
    have hfail : hitFail env pdf.pagesSrc 1 = true :=
      hitFail_first_fail env pdf.pagesSrc 1 k hk1 (by omega)
        (fun j h1 h2 => by rw [hbefore j h1 h2]; decide) hfk
    simp only [hfail, eq_self_iff_true, if_true]
    refine ⟨by trivial, ?_⟩
    show (convertLoop _ _ env upd pdf.pagesSrc 1 [] _).st.pages = _
    rw [convertLoop_pages _ _ _ _ _ _ _ _ (by rfl),
      processedPages_fail_at env pdf.pagesSrc 1 k hk1 hbefore hfk]
    simp
  · intro hnk hafter
    have hnofail : hitFail env pdf.pagesSrc 1 = false := by
      refine hitFail_no_fail env pdf.pagesSrc 1 (fun j h1 h2 => ?_)
      rcases lt_trichotomy j k with hj | hj | hj
      · rw [hbefore j h1 hj]; decide
      · subst hj; rw [hnk]; decide
      · rw [hafter j hj (by omega)]; decide
    simp only [hnofail, Bool.false_eq_true, if_false]
    refine ⟨by trivial, ?_⟩
    show (convertLoop _ _ env upd pdf.pagesSrc 1 [] _).images = _
    rw [convertLoop_images,
      processedPages_noContext_at env pdf.pagesSrc 1 k hk1 (by omega)
        (fun j h1 h2 hjk => by
          rcases lt_or_gt_of_ne hjk with hj | hj
          · exact hbefore j h1 hj
          · exact hafter j hj (by omega)) hnk]
    simp

/-- Witness for the amended C5: on the 2-page source, a throw at page 1
aborts with `error` and no accumulated pages, while a missing context at
page 1 completes with page 1 erased. -/
theorem convert_error_spec_witness :
    ((convertPDFToImages envFail1 noUpd idleTwoPage).final.status = Status.error ∧
      (convertPDFToImages envFail1 noUpd idleTwoPage).final.pages
        = (twoPagePdf.pagesSrc.take 0).map
            (fun p => rasterize p (qualitySettings Quality.high))) ∧
    ((convertPDFToImages envNC1 noUpd idleTwoPage).final.status = Status.completed ∧
      (convertPDFToImages envNC1 noUpd idleTwoPage).final.pages
        = (twoPagePdf.pagesSrc.eraseIdx 0).map
            (fun p => rasterize p (qualitySettings Quality.high))) := by
  have h1 := convert_error_spec idleTwoPage exFile2 twoPagePdf envFail1 noUpd 1 rfl rfl
    (by decide) (by decide) (fun j hj1 hj2 => by omega)
  have h2 := convert_error_spec idleTwoPage exFile2 twoPagePdf envNC1 noUpd 1 rfl rfl
    (by decide) (by decide) (fun j hj1 hj2 => by omega)
  exact ⟨h1.1 rfl, h2.2 rfl (fun j hj1 hj2 => by
    simp only [envNC1]
    rw [if_neg (by omega)])⟩

/-- Claim C6 counterexample: on a valid 1-page source whose page gets no 2D
context, the run completes while the published progress values are `[0, 0]` —
the value `100·1/1 = 100` demanded for `k = 1` is never visited. -/
theorem convert_progress_counterexample :
    onePagePdf.pagesSrc.length = 1 ∧
    (convertPDFToImages envNoCtx noUpd idleOnePage).final.status = Status.completed ∧
    ((convertPDFToImages envNoCtx noUpd idleOnePage).trace.map (fun x => x.progress))
      = [0, 0] ∧
    (100 : ℚ) ∉ ((convertPDFToImages envNoCtx noUpd idleOnePage).trace.map
      (fun x => x.progress)) := by
  refine ⟨rfl, rfl, rfl, ?_⟩
  rw [show ((convertPDFToImages envNoCtx noUpd idleOnePage).trace.map
      (fun x => x.progress)) = [0, 0] from rfl]
  norm_num

/-- Claim C6 amended: within a single run the published progress values are
monotonically non-decreasing, and progress is recomputed as
`(pageNum / totalPages) * 100` after each successfully rendered page; when
every page of a nonempty source renders, the published progress values are
exactly `0` (the initial snapshot), `(1+i)/N·100` for `i = 0 .. N-1` (one per
page), and `100` again on the terminal snapshot. -/
theorem convert_progress_spec (s : SessionState) (f : JsFile) (pdf : SourceDocument)
    (env : Nat → PageEnv) (upd : Nat → Option Quality)
    (hf : s.file = some f) (hd : f.doc = some pdf) :
    List.Chain' (fun a b => a.progress ≤ b.progress)
      ((convertPDFToImages env upd s).trace) ∧
    (0 < pdf.pagesSrc.length →
      (∀ j, 1 ≤ j → j ≤ pdf.pagesSrc.length → env j = PageEnv.ok) →
      ((convertPDFToImages env upd s).trace.map (fun x => x.progress))
        = 0 :: ((List.range pdf.pagesSrc.length).map
            (fun i => (((1 + i : Nat)) : ℚ) / ((pdf.pagesSrc.length : Nat) : ℚ) * 100))
          ++ [(100 : ℚ)]) := by
  simp only [convertPDFToImages, hf, hd]
  rw [convertLoop_exc]
  cases hfail : hitFail env pdf.pagesSrc 1
  · simp only [hfail, Bool.false_eq_true, if_false]
    constructor
    · exact convertLoop_chain_full _ _ _ _ _ _ _ _ _ (by norm_num) rfl
    · intro hN hok
      have hok' : ∀ j, 1 ≤ j → j < 1 + pdf.pagesSrc.length → env j = PageEnv.ok :=
        fun j h1 h2 => hok j h1 (by omega)
      have hne : pdf.pagesSrc ≠ [] := by
        intro hcon
        rw [hcon] at hN
        simp at hN
      simp only [List.map_append, List.map_cons, List.map_nil]
      rw [convertLoop_trace_all_ok _ _ env upd pdf.pagesSrc 1 [] _ hok']
      rw [convertLoop_progress_all_ok _ _ env upd pdf.pagesSrc 1 [] _ hok' hne]
      have h1 : 1 + (pdf.pagesSrc.length - 1) = pdf.pagesSrc.length := by omega
      rw [h1]
      have h2 : ((pdf.pagesSrc.length : Nat) : ℚ) ≠ 0 := by
        exact_mod_cast Nat.pos_iff_ne_zero.mp hN
      have h3 : ((pdf.pagesSrc.length : Nat) : ℚ) / ((pdf.pagesSrc.length : Nat) : ℚ) * 100
          = (100 : ℚ) := by
        field_simp
      rw [h3]
  · simp only [hfail, eq_self_iff_true, if_true]
    constructor
    · exact convertLoop_chain_full _ _ _ _ _ _ _ _ _ (by norm_num) rfl
    · intro hN hok
      have hnofail := hitFail_no_fail env pdf.pagesSrc 1
        (fun j h1 h2 => by rw [hok j h1 (by omega)]; decide)
      rw [hnofail] at hfail
      exact absurd hfail (by simp)

/-- Witness for the amended C6: the fully successful 2-page run publishes
exactly the progress values 0, 50, 100, 100, a non-decreasing chain. -/
theorem convert_progress_spec_witness :
    List.Chain' (fun a b => a.progress ≤ b.progress)
      ((convertPDFToImages allOk noUpd idleTwoPage).trace) ∧
    ((convertPDFToImages allOk noUpd idleTwoPage).trace.map (fun x => x.progress))
      = 0 :: ((List.range twoPagePdf.pagesSrc.length).map
          (fun i => (((1 + i : Nat)) : ℚ) / ((twoPagePdf.pagesSrc.length : Nat) : ℚ) * 100))
        ++ [(100 : ℚ)] := by
  have h := convert_progress_spec idleTwoPage exFile2 twoPagePdf allOk noUpd rfl rfl
  exact ⟨h.1, h.2 (by decide) (fun j h1 h2 => rfl)⟩

/-- A pattern no longer than `l` matches at the head of `l ++ m` exactly when
it matches at the head of `l`. -/
theorem startsWith_append_of_le :
    ∀ (pat l m : List Char), pat.length ≤ l.length →
    startsWith pat (l ++ m) = startsWith pat l := by
  intro pat
  induction pat with
  | nil => intro l m _; cases l <;> simp [startsWith]
  | cons p ps ih =>
    intro l m h
    cases l with
    | nil => simp at h
    | cons c cs =>
      simp only [List.cons_append, startsWith]
      rw [show cs.append m = cs ++ m from rfl, ih cs m (by simpa using h)]

/-- A pattern matching at the head occurs in the string. -/
theorem occursIn_of_startsWith (pat l : List Char) (h : startsWith pat l = true) :
    occursIn pat l = true := by
  cases l with
  | nil => simpa [occursIn] using h
  | cons c cs => simp [occursIn, h]

/-- The pattern `.pdf` cannot straddle the boundary of `l ++ .pdf`: if it
does not occur inside `l`, it does not match at the head of `l ++ .pdf` for
nonempty `l`. -/
theorem startsWith_pdfPat_append (l : List Char) (hne : l ≠ [])
    (hocc : occursIn pdfPat l = false) :
    startsWith pdfPat (l ++ pdfPat) = false := by
  rcases l with _ | ⟨a, _ | ⟨b, _ | ⟨c, _ | ⟨d, rest⟩⟩⟩⟩
  · exact absurd rfl hne
  · show startsWith pdfPat ([a] ++ pdfPat) = false
    simp only [pdfPat, List.cons_append, List.nil_append, startsWith]
    rw [show (('p' : Char) == '.') = false from by decide]
    simp
  · show startsWith pdfPat ([a, b] ++ pdfPat) = false
    simp only [pdfPat, List.cons_append, List.nil_append, startsWith]
    rw [show (('d' : Char) == '.') = false from by decide]
    simp
  · show startsWith pdfPat ([a, b, c] ++ pdfPat) = false
    simp only [pdfPat, List.cons_append, List.nil_append, startsWith]
    rw [show (('f' : Char) == '.') = false from by decide]
    simp
  · have h4 : pdfPat.length ≤ (a :: b :: c :: d :: rest).length := by
      simp [pdfPat]
    rw [startsWith_append_of_le _ _ _ h4]
    cases hsw : startsWith pdfPat (a :: b :: c :: d :: rest)
    · rfl
    · rw [occursIn_of_startsWith _ _ hsw] at hocc
      simp at hocc

/-- Replacing the first occurrence of `.pdf` in `stem ++ .pdf`, when `.pdf`
does not occur in `stem`, replaces exactly the suffix. -/
theorem replaceFirst_pdf_suffix :
    ∀ (stem : List Char), occursIn pdfPat stem = false →
    replaceFirst pdfPat imageOnlySuffix (stem ++ pdfPat) = stem ++ imageOnlySuffix := by
  intro stem
  induction stem with
  | nil => intro _; decide
  | cons a t ih =>
    intro h
    have hparts : startsWith pdfPat (a :: t) = false ∧ occursIn pdfPat t = false := by
      simpa only [occursIn, Bool.or_eq_false_iff] using h
    have hS : startsWith pdfPat ((a :: t) ++ pdfPat) = false :=
      startsWith_pdfPat_append (a :: t) (by simp) h
    show replaceFirst pdfPat imageOnlySuffix ((a :: t) ++ pdfPat) = (a :: t) ++ imageOnlySuffix
    rw [List.cons_append] at hS ⊢
    simp only [replaceFirst]
    rw [if_neg (by rw [hS]; simp)]
    rw [ih hparts.2]
    rfl

/-- Claim C8 counterexample: for source name `a.pdf.pdf` the output name is
`a_image-only.pdf.pdf` — the FIRST occurrence of `.pdf` is replaced, not the
suffix, which suffix-replacement would turn into `a.pdf_image-only.pdf`. -/
theorem outputFileName_counterexample :
    outputFileName (some { name := "a.pdf.pdf".toList, type := appPdfType, doc := none })
      = "a_image-only.pdf.pdf".toList ∧
    "a_image-only.pdf.pdf".toList ≠ "a.pdf".toList ++ imageOnlySuffix := by
  constructor
  · decide
  · decide

/-- Claim C8 amended: the output name replaces the FIRST occurrence of `.pdf`
in the source name by `_image-only.pdf`; for names in which `.pdf` occurs
only as the suffix this coincides with suffix replacement, and with no source
file the name is `converted_image-only.pdf`. -/
theorem outputFileName_spec (f : JsFile) (stem : List Char) :
    (occursIn pdfPat stem = false → f.name = stem ++ pdfPat →
      outputFileName (some f) = stem ++ imageOnlySuffix) ∧
    outputFileName none = fallbackName := by
  refine ⟨fun hocc hname => ?_, rfl⟩
  have hne : imageOnlySuffix ≠ [] := by decide
  simp only [outputFileName]
  rw [hname, replaceFirst_pdf_suffix stem hocc]
  rw [if_neg (fun hcon => hne (List.append_eq_nil.mp hcon).2)]

/-- Witness for the amended C8 at the name `report.pdf` and the missing-file
fallback. -/
theorem outputFileName_spec_witness :
    outputFileName
        (some { name := "report.pdf".toList, type := appPdfType, doc := none })
      = "report".toList ++ imageOnlySuffix ∧
    outputFileName none = fallbackName := by
  have h := outputFileName_spec
    { name := "report.pdf".toList, type := appPdfType, doc := none } ("report".toList)
  exact ⟨h.1 (by decide) (by decide), h.2⟩
